import Mathlib

/-!
Shallow embedding of the Taskist desktop task store and replication engine
(Rust sources: `src-tauri/src/database.rs`, `src-tauri/src/sync.rs`,
`src-tauri/src/encryption.rs`).

The SQLite task table is modelled as a list of rows in rowid (insertion)
order; the single-row `sync_state` table as two optional fields.  Every
operation of `database.rs` becomes a pure function over this state, with
the environment-supplied values (fresh UUIDs, random revision suffixes,
the wall clock `Utc::now().timestamp_millis()`) passed as explicit
arguments.  Rust `i32` arithmetic is embedded as `Int` with an explicit
two's-complement wrap (`wrap32`), matching the wrapping overflow semantics
of release builds; `i64` timestamps are plain `Int` (no arithmetic is ever
performed on them, only comparisons).  Fallible network interactions of
`sync.rs` are embedded by passing the transport's response (or failure) as
an explicit argument of the function that would perform the request.
-/

namespace Taskist

/-- A row of the `tasks` table / the `Task` struct of `database.rs`. -/
structure Task where
  id : String
  rev : Option String
  title : String
  description : Option String
  completed : Bool
  dueDate : Option String
  updatedAt : Int
  order : Int
  deleted : Bool
deriving Repr, DecidableEq

/-- The persistent database state: the `tasks` table rows in rowid order,
and the single `sync_state` row (`last_seq`, `last_synced_at`). -/
structure DbState where
  tasks : List Task
  lastSeq : Option String
  lastSyncedAt : Option Int
deriving Repr, DecidableEq

/-- The `tasks.id` column is the PRIMARY KEY: SQLite guarantees ids are
pairwise distinct.  States reachable through the API maintain this. -/
def UniqueIds (db : DbState) : Prop :=
  (db.tasks.map Task.id).Nodup

/-- Two's-complement wrap into the `i32` range, the value a Rust release
build produces for an overflowing `i32` computation. -/
def wrap32 (n : Int) : Int :=
  (n + 2 ^ 31) % 2 ^ 32 - 2 ^ 31

/-- Digit-string to number; `none` unless nonempty and all ASCII digits. -/
def parseDigits (cs : List Char) : Option Nat :=
  if cs = [] then none
  else if cs.all Char.isDigit then
    some (cs.foldl (fun a c => a * 10 + (c.toNat - 48)) 0)
  else none

/-- Embedding of Rust `str::parse::<i32>`: optional sign, at least one
digit, no other characters, and the value must fit in `i32`. -/
def parseI32 (s : String) : Option Int :=
  match s.data with
  | '+' :: rest =>
    (parseDigits rest).bind fun n =>
      if (n : Int) ≤ 2 ^ 31 - 1 then some (n : Int) else none
  | '-' :: rest =>
    (parseDigits rest).bind fun n =>
      if (n : Int) ≤ 2 ^ 31 then some (-(n : Int)) else none
  | cs =>
    (parseDigits cs).bind fun n =>
      if (n : Int) ≤ 2 ^ 31 - 1 then some (n : Int) else none

/-- `rev.split('-').next()`: the characters before the first `'-'`. -/
def firstField (s : String) : String :=
  ⟨s.data.takeWhile (fun c => c ≠ '-')⟩

/-- `task.rev.as_ref().and_then(split).and_then(parse).unwrap_or(0)` from
`update_task`: the stored revision counter, `0` when absent/unparsable. -/
def parseRevCounter (rev : Option String) : Int :=
  match rev with
  | none => 0
  | some r => (parseI32 (firstField r)).getD 0

/-- The new revision counter computed by `update_task`:
`parse + 1` in `i32` arithmetic. -/
def updateRevCounter (rev : Option String) : Int :=
  wrap32 (parseRevCounter rev + 1)

/-- Insertion into a list sorted ascending by `key`. -/
def insertSorted (key : Task → Int) (t : Task) : List Task → List Task
  | [] => [t]
  | x :: xs => if key t ≤ key x then t :: x :: xs else x :: insertSorted key t xs

/-- Model of SQL `ORDER BY key ASC` (some ascending permutation). -/
def sortByKey (key : Task → Int) (l : List Task) : List Task :=
  l.foldr (insertSorted key) []

/-- `SELECT ... FROM tasks WHERE deleted = 0 ORDER BY task_order ASC`
(the body of `get_all_tasks`). -/
def get_all_tasks (db : DbState) : List Task :=
  sortByKey Task.order (db.tasks.filter fun t => !t.deleted)

/-- `COALESCE(MAX(task_order), 0) ... WHERE deleted = 0` from `add_task`. -/
def maxOrderNonDeleted (db : DbState) : Int :=
  match (db.tasks.filter fun t => !t.deleted).map Task.order with
  | [] => 0
  | x :: xs => xs.foldl max x

/-- `add_task`: fresh id and revision `1-<random>`, `updated_at = now`,
`order = max_order + 1` (in `i32`), row appended, task returned. -/
def add_task (title : String) (description dueDate : Option String)
    (freshId suffix : String) (now : Int) (db : DbState) : Task × DbState :=
  let t : Task :=
    { id := freshId
      rev := some ("1-" ++ suffix)
      title := title
      description := description
      completed := false
      dueDate := dueDate
      updatedAt := now
      order := wrap32 (maxOrderNonDeleted db + 1)
      deleted := false }
  (t, { db with tasks := db.tasks ++ [t] })

/-- `update_task`: bump the revision counter (`i32`), fresh random suffix,
`updated_at = now`, all supplied fields written verbatim to the row with
the task's id, the updated task returned. -/
def update_task (task : Task) (suffix : String) (now : Int) (db : DbState) :
    Task × DbState :=
  let newRev := toString (updateRevCounter task.rev) ++ "-" ++ suffix
  let t : Task :=
    { id := task.id
      rev := some newRev
      title := task.title
      description := task.description
      completed := task.completed
      dueDate := task.dueDate
      updatedAt := now
      order := task.order
      deleted := task.deleted }
  (t, { db with tasks := db.tasks.map fun r => if r.id = task.id then t else r })

/-- `delete_task`: `UPDATE tasks SET deleted = 1, updated_at = now WHERE id`
(soft delete; row retained). -/
def delete_task (id : String) (now : Int) (db : DbState) : DbState :=
  { db with
    tasks := db.tasks.map fun r =>
      if r.id = id then { r with deleted := true, updatedAt := now } else r }

/-- `get_changes_since`: all rows (tombstones included) with
`updated_at > since`, ascending by `updated_at`. -/
def get_changes_since (since : Int) (db : DbState) : List Task :=
  sortByKey Task.updatedAt (db.tasks.filter fun t => since < t.updatedAt)

/-- `upsert_from_remote`: `INSERT ... ON CONFLICT(id) DO UPDATE SET`
every column `... WHERE excluded.updated_at > tasks.updated_at`. -/
def upsert_from_remote (task : Task) (db : DbState) : DbState :=
  if db.tasks.any (fun r => r.id = task.id) then
    { db with
      tasks := db.tasks.map fun r =>
        if r.id = task.id ∧ r.updatedAt < task.updatedAt then task else r }
  else
    { db with tasks := db.tasks ++ [task] }

/-- `move_task_to_position`: find the positions of the two ids in the
non-deleted tasks sorted by order (`Task not found` errors when absent);
equal positions are a no-op; otherwise the two rows' `task_order` values
are swapped directly (both rows also get `updated_at = now`). -/
def move_task_to_position (taskId targetId : String) (now : Int) (db : DbState) :
    Except String DbState :=
  let sorted := sortByKey Task.order (db.tasks.filter fun t => !t.deleted)
  match sorted.findIdx? (fun t => t.id = taskId) with
  | none => Except.error "Task not found"
  | some ci =>
    match sorted.findIdx? (fun t => t.id = targetId) with
    | none => Except.error "Target task not found"
    | some ti =>
      if ci = ti then Except.ok db
      else
        let currentOrder := (sorted[ci]?.map Task.order).getD 0
        let targetOrder := (sorted[ti]?.map Task.order).getD 0
        Except.ok
          { db with
            tasks := db.tasks.map fun r =>
              if r.id = taskId then { r with order := targetOrder, updatedAt := now }
              else if r.id = targetId then { r with order := currentOrder, updatedAt := now }
              else r }

/-- Characterisation of the row transformation `move_task_to_position`
performs when the two found rows have orders `oa` (the moved row) and `ob`
(the target row): the moved row receives `ob`, the target receives `oa`,
both get `updated_at = now`, every other row is untouched. -/
def swapFun (taskId targetId : String) (oa ob now : Int) (r : Task) : Task :=
  if r.id = taskId then { r with order := ob, updatedAt := now }
  else if r.id = targetId then { r with order := oa, updatedAt := now }
  else r

/-- `get_last_sync_seq`: the stored cursor, `none` when the row is absent. -/
def get_last_sync_seq (db : DbState) : Option String :=
  db.lastSeq

/-- `set_last_sync_seq`: upsert the single `sync_state` row with the new
cursor and `last_synced_at = now`. -/
def set_last_sync_seq (seq : String) (now : Int) (db : DbState) : DbState :=
  { db with lastSeq := some seq, lastSyncedAt := some now }

/-! ## Replication engine (`sync.rs`) -/

/-- A CouchDB document as (de)serialised by `sync.rs` (`CouchDoc` with the
flattened `TaskData`). -/
structure CouchDoc where
  id : String
  rev : Option String
  title : String
  description : Option String
  completed : Bool
  dueDate : Option String
  updatedAt : Int
  order : Int
  deleted : Option Bool
deriving Repr, DecidableEq

/-- One entry of the `_changes` feed (`ChangesResult`). -/
structure ChangesResult where
  id : String
  seq : String
  doc : Option CouchDoc
  deleted : Option Bool
deriving Repr, DecidableEq

/-- The `_changes` feed response (`ChangesResponse`). -/
structure ChangesResponse where
  results : List ChangesResult
  last_seq : String
deriving Repr, DecidableEq

/-- The document `push_changes` builds for one local task: local fields,
the remote counterpart's version token, and `_deleted = Some(true)` only
for tombstoned tasks. -/
def taskToCouchDoc (remoteRev : Option String) (t : Task) : CouchDoc :=
  { id := t.id
    rev := remoteRev
    title := t.title
    description := t.description
    completed := t.completed
    dueDate := t.dueDate
    updatedAt := t.updatedAt
    order := t.order
    deleted := if t.deleted then some true else none }

/-- The push phase (`push_changes`): iterate `db.get_all_tasks()`, and for
each of those tasks fetch the remote revision (the `remoteRev` oracle:
`none` models a 404 / non-success GET) and PUT the built document.
The returned list is the sequence of documents written to the remote;
per-task PUT failures are only logged and never abort the phase. -/
def push_changes (remoteRev : String → Option String) (db : DbState) :
    List CouchDoc :=
  (get_all_tasks db).map fun t => taskToCouchDoc (remoteRev t.id) t

/-- `pull_changes`' mapping of a feed entry's document to a local task:
tombstone if either the entry or the document carries the deleted flag. -/
def docToTask (entryDeleted : Option Bool) (doc : CouchDoc) : Task :=
  { id := doc.id
    rev := doc.rev
    title := doc.title
    description := doc.description
    completed := doc.completed
    dueDate := doc.dueDate
    updatedAt := doc.updatedAt
    order := doc.order
    deleted := entryDeleted.getD false || doc.deleted.getD false }

/-- The body of `pull_changes`' loop over `changes.results`: entries
without a document and `_design` documents are skipped; each remaining
document is upserted in turn.  `upsertOk k` tells whether the `k`-th
executed upsert statement succeeds (an SQLite/lock failure is
environmental); a failing upsert leaves the store as the preceding
iterations left it and aborts with the error the code produces. -/
def applyResults (upsertOk : Nat → Bool) :
    List ChangesResult → Nat → DbState → Except String Unit × DbState
  | [], _, db => (Except.ok (), db)
  | r :: rest, k, db =>
    match r.doc with
    | none => applyResults upsertOk rest k db
    | some doc =>
      if doc.id.startsWith "_design" then applyResults upsertOk rest k db
      else if upsertOk k then
        applyResults upsertOk rest (k + 1) (upsert_from_remote (docToTask r.deleted doc) db)
      else (Except.error "Upsert failed", db)

/-- The pull phase (`pull_changes`): `feed` is the outcome of the batched
`GET _changes?include_docs=true&since=<cursor>` round trip (request
failure, non-success status and JSON parse failure all collapse to its
error case, carrying the formatted message).  On success every entry is
applied through `upsert_from_remote`, then the cursor is persisted
unconditionally to the feed's `last_seq`.  The returned state is the
store as the phase leaves it, whether or not an error is returned. -/
def pull_changes (feed : Except String ChangesResponse) (upsertOk : Nat → Bool)
    (now : Int) (db : DbState) : Except String Unit × DbState :=
  match feed with
  | Except.error e => (Except.error e, db)
  | Except.ok changes =>
    match applyResults upsertOk changes.results 0 db with
    | (Except.error e, db') => (Except.error e, db')
    | (Except.ok _, db') => (Except.ok (), set_last_sync_seq changes.last_seq now db')

/-! ## Engine start-up (`SyncManager::start_sync`, `ensure_db_exists`) -/

/-- Sync configuration (`SyncSettings` of `encryption.rs`). -/
structure SyncSettings where
  syncMode : String
  syncUrl : String
  syncUsername : String
  syncPassword : String
  syncDbName : String
deriving Repr, DecidableEq

/-- `SyncSettings::is_sync_enabled`: every mode but `"local"` syncs. -/
def is_sync_enabled (s : SyncSettings) : Bool :=
  s.syncMode ≠ "local"

/-- `SyncStatus` of `sync.rs`. -/
inductive SyncStatus where
  | idle
  | connecting
  | syncing
  | paused
  | error
  | disabled
deriving Repr, DecidableEq

/-- `SyncState` of `sync.rs`: the broadcast state snapshot. -/
structure SyncState where
  status : SyncStatus
  lastSynced : Option Int
  error : Option String
  syncMode : Option String
deriving Repr, DecidableEq

/-- Outcome of one HTTP round trip: transport failure, or a status code
with the response body. -/
inductive HttpOutcome where
  | netErr (msg : String)
  | status (code : Nat) (body : String)
deriving Repr, DecidableEq

/-- `reqwest::StatusCode::is_success`: the 2xx range. -/
def isSuccessCode (code : Nat) : Bool :=
  200 ≤ code ∧ code < 300

/-- `ensure_db_exists`: PUT the database URL; 2xx and 412 ("already
exists") both succeed, anything else is an error. -/
def ensure_db_exists (resp : HttpOutcome) : Except String Unit :=
  match resp with
  | HttpOutcome.netErr e => Except.error ("Connection failed: " ++ e)
  | HttpOutcome.status code body =>
    if isSuccessCode code || code = 412 then Except.ok ()
    else Except.error ("Failed to create database: " ++ body)

/-- Observable outcome of `start_sync`, run to the point where the spawned
session either enters the main sync loop or returns: the stored engine
state, the running flag, whether the loop was entered, how many network
round trips were performed, and the state snapshots emitted to the
notification sink (in order). -/
structure StartOutcome where
  finalState : SyncState
  running : Bool
  loopEntered : Bool
  networkCalls : Nat
  emitted : List SyncState
deriving Repr, DecidableEq

/-- `start_sync` up to loop entry.  `prevState`/`prevRunning` are the
engine's state and running flag when called; `ensureResp` is the response
the transport would give the existence-check PUT (the only network call
before the loop).  Local-only mode stores and emits `Disabled` and returns
without touching the running flag or the network; an already-running
session returns immediately; otherwise the running flag is set,
`Connecting` is stored and emitted, and the existence check decides
between entering the loop and storing `Error` with the flag cleared. -/
def start_sync (settings : SyncSettings) (prevState : SyncState)
    (prevRunning : Bool) (ensureResp : HttpOutcome) : StartOutcome :=
  if !is_sync_enabled settings then
    let st : SyncState :=
      { status := SyncStatus.disabled
        lastSynced := none
        error := none
        syncMode := some settings.syncMode }
    { finalState := st
      running := prevRunning
      loopEntered := false
      networkCalls := 0
      emitted := [st] }
  else if prevRunning then
    { finalState := prevState
      running := true
      loopEntered := false
      networkCalls := 0
      emitted := [] }
  else
    let connecting : SyncState :=
      { status := SyncStatus.connecting
        lastSynced := none
        error := none
        syncMode := some settings.syncMode }
    match ensure_db_exists ensureResp with
    | Except.ok _ =>
      { finalState := connecting
        running := true
        loopEntered := true
        networkCalls := 1
        emitted := [connecting] }
    | Except.error e =>
      let errSt : SyncState :=
        { status := SyncStatus.error
          lastSynced := none
          error := some e
          syncMode := some settings.syncMode }
      { finalState := errSt
        running := false
        loopEntered := false
        networkCalls := 1
        emitted := [connecting, errSt] }

/-! ## Concrete fixtures for witnesses and counterexamples -/

/-- Concrete task with revision counter 3, used for the C4 witness. -/
def witRev3Task : Task :=
  { id := "w", rev := some "3-old", title := "W", description := none,
    completed := false, dueDate := none, updatedAt := 5, order := 1,
    deleted := false }

/-- Concrete one-row store holding `witRev3Task`. -/
def witRev3Db : DbState :=
  { tasks := [witRev3Task], lastSeq := none, lastSyncedAt := none }

/-- Concrete task whose revision counter is i32::MAX. -/
def overflowRevTask : Task :=
  { id := "x", rev := some "2147483647-ab", title := "T", description := none,
    completed := false, dueDate := none, updatedAt := 0, order := 1,
    deleted := false }

/-- Concrete one-row store holding `overflowRevTask`. -/
def overflowRevDb : DbState :=
  { tasks := [overflowRevTask], lastSeq := none, lastSyncedAt := none }

/-- Concrete non-deleted task at order i32::MAX. -/
def maxOrderTask : Task :=
  { id := "m", rev := some "1-r", title := "M", description := none,
    completed := false, dueDate := none, updatedAt := 0, order := 2147483647,
    deleted := false }

/-- Concrete one-row store holding `maxOrderTask`. -/
def maxOrderDb : DbState :=
  { tasks := [maxOrderTask], lastSeq := none, lastSyncedAt := none }

/-- Concrete remote document for the C2 witness, strictly newer than the
stored `witRev3Task` (updatedAt 5). -/
def witRemoteTask : Task :=
  { id := "w", rev := some "2-zz", title := "W2", description := some "d",
    completed := true, dueDate := none, updatedAt := 50, order := 3,
    deleted := false }

/-- Concrete active row for the C1 store. -/
def pushActiveTask : Task :=
  { id := "keep", rev := some "1-k", title := "Keep", description := none,
    completed := false, dueDate := none, updatedAt := 10, order := 1,
    deleted := false }

/-- Concrete tombstoned row: soft-deleted so the deletion should sync. -/
def pushTombTask : Task :=
  { id := "gone", rev := some "2-g", title := "Gone", description := none,
    completed := false, dueDate := none, updatedAt := 20, order := 2,
    deleted := true }

/-- Concrete store holding one active row and one tombstone. -/
def pushDb : DbState :=
  { tasks := [pushActiveTask, pushTombTask], lastSeq := none,
    lastSyncedAt := none }

/-- Concrete remote document applied first in the C3 counterexample. -/
def pullDocA : CouchDoc :=
  { id := "pa", rev := some "1-a", title := "A", description := none,
    completed := false, dueDate := none, updatedAt := 100, order := 1,
    deleted := none }

/-- Concrete remote document whose upsert fails in the C3 counterexample. -/
def pullDocB : CouchDoc :=
  { id := "pb", rev := some "1-b", title := "B", description := none,
    completed := false, dueDate := none, updatedAt := 200, order := 2,
    deleted := none }

/-- Concrete two-entry change feed. -/
def pullResp : ChangesResponse :=
  { results :=
      [{ id := "pa", seq := "1", doc := some pullDocA, deleted := none },
       { id := "pb", seq := "2", doc := some pullDocB, deleted := none }],
    last_seq := "2" }

/-- Concrete empty store with a stored cursor. -/
def pullDb0 : DbState := { tasks := [], lastSeq := some "0", lastSyncedAt := none }

/-- Concrete non-deleted row with id `"a"`, order 1 (C7 fixture). -/
def swapTaskA : Task :=
  { id := "a", rev := some "1-a", title := "A", description := none,
    completed := false, dueDate := none, updatedAt := 1, order := 1,
    deleted := false }

/-- Concrete non-deleted row with id `"b"`, order 2 (C7 fixture). -/
def swapTaskB : Task :=
  { id := "b", rev := some "1-b", title := "B", description := none,
    completed := false, dueDate := none, updatedAt := 2, order := 2,
    deleted := false }

/-- Concrete two-row store for the C7 witness. -/
def swapDb : DbState :=
  { tasks := [swapTaskA, swapTaskB], lastSeq := none, lastSyncedAt := none }

/-! ## Helper lemmas -/

theorem insertSorted_perm (key : Task → Int) (t : Task) (l : List Task) :
    (insertSorted key t l).Perm (t :: l) := by
  induction l with
  | nil => simp [insertSorted]
  | cons x xs ih =>
    simp only [insertSorted]
    split
    · exact List.Perm.refl _
    · exact (ih.cons x).trans (List.Perm.swap t x xs)

theorem sortByKey_perm (key : Task → Int) (l : List Task) :
    (sortByKey key l).Perm l := by
  induction l with
  | nil => simp [sortByKey]
  | cons x xs ih =>
    exact (insertSorted_perm key x (sortByKey key xs)).trans (ih.cons x)

theorem mem_sortByKey {a : Task} {key : Task → Int} {l : List Task} :
    a ∈ sortByKey key l ↔ a ∈ l :=
  (sortByKey_perm key l).mem_iff

theorem wrap32_eq_self {n : Int} (h1 : -(2 ^ 31) ≤ n) (h2 : n < 2 ^ 31) :
    wrap32 n = n := by
  unfold wrap32
  rw [Int.emod_eq_of_lt (by omega) (by omega)]
  omega

theorem parseI32_ge {s : String} {c : Int} (h : parseI32 s = some c) :
    -(2 ^ 31) ≤ c := by
  unfold parseI32 at h
  split at h <;>
  · rcases Option.bind_eq_some.mp h with ⟨n, _, hi⟩
    split at hi
    · cases hi
      omega
    · cases hi

theorem parseI32_le {s : String} {c : Int} (h : parseI32 s = some c) :
    c ≤ 2 ^ 31 := by
  unfold parseI32 at h
  split at h <;>
  · rcases Option.bind_eq_some.mp h with ⟨n, _, hi⟩
    split at hi
    · cases hi
      omega
    · cases hi

theorem foldl_max_init_le (l : List Int) (a : Int) : a ≤ l.foldl max a := by
  induction l generalizing a with
  | nil => exact le_refl a
  | cons x xs ih =>
    exact le_trans (le_max_left a x) (ih (max a x))

theorem maxOrderNonDeleted_ge {db : DbState}
    (h : ∀ r ∈ db.tasks, -(2 ^ 31) ≤ r.order) :
    -(2 ^ 31) ≤ maxOrderNonDeleted db := by
  unfold maxOrderNonDeleted
  split
  · omega
  · rename_i x xs heq
    have hx : x ∈ (db.tasks.filter fun t => !t.deleted).map Task.order := by
      rw [heq]
      exact List.mem_cons_self x xs
    rcases List.mem_map.mp hx with ⟨r, hr, hrx⟩
    have : -(2 ^ 31) ≤ x := hrx ▸ h r (List.mem_filter.mp hr).1
    exact le_trans this (foldl_max_init_le xs x)

theorem upsert_cursor (t : Task) (db : DbState) :
    (upsert_from_remote t db).lastSeq = db.lastSeq
    ∧ (upsert_from_remote t db).lastSyncedAt = db.lastSyncedAt := by
  unfold upsert_from_remote
  split <;> exact ⟨rfl, rfl⟩

theorem applyResults_cursor (upsertOk : Nat → Bool) (l : List ChangesResult)
    (k : Nat) (db : DbState) :
    (applyResults upsertOk l k db).2.lastSeq = db.lastSeq
    ∧ (applyResults upsertOk l k db).2.lastSyncedAt = db.lastSyncedAt := by
  induction l generalizing k db with
  | nil => exact ⟨rfl, rfl⟩
  | cons r rest ih =>
    simp only [applyResults]
    match hd : r.doc with
    | none => exact ih k db
    | some doc =>
      simp only []
      split
      · exact ih k db
      · split
        · rcases ih (k + 1) (upsert_from_remote (docToTask r.deleted doc) db) with ⟨h1, h2⟩
          rcases upsert_cursor (docToTask r.deleted doc) db with ⟨h3, h4⟩
          exact ⟨h1.trans h3, h2.trans h4⟩
        · exact ⟨rfl, rfl⟩

theorem unique_row_eq {db : DbState} (hu : UniqueIds db) {x y : Task}
    (hx : x ∈ db.tasks) (hy : y ∈ db.tasks) (h : x.id = y.id) : x = y :=
  List.inj_on_of_nodup_map hu hx hy h

theorem upsert_of_no_row {t : Task} {db : DbState}
    (h : ∀ r ∈ db.tasks, r.id ≠ t.id) :
    upsert_from_remote t db = { db with tasks := db.tasks ++ [t] } := by
  unfold upsert_from_remote
  have : db.tasks.any (fun r => r.id = t.id) = false := by
    simp only [List.any_eq_false, decide_eq_true_eq]
    exact h
  simp [this]

theorem upsert_of_row {t : Task} {db : DbState}
    (h : ∃ r ∈ db.tasks, r.id = t.id) :
    upsert_from_remote t db =
      { db with
        tasks := db.tasks.map fun r =>
          if r.id = t.id ∧ r.updatedAt < t.updatedAt then t else r } := by
  unfold upsert_from_remote
  have : db.tasks.any (fun r => r.id = t.id) = true := by
    simp only [List.any_eq_true, decide_eq_true_eq]
    exact h
  simp [this]

theorem findIdx?_of_mem {l : List Task} {p : Task → Bool} {x : Task}
    (hx : x ∈ l) (hp : p x = true) : ∃ i, l.findIdx? p = some i := by
  have h1 : l.any p = true := List.any_eq_true.mpr ⟨x, hx, hp⟩
  have h2 : (l.findIdx? p).isSome = true := by
    rw [List.findIdx?_isSome]
    exact h1
  exact Option.isSome_iff_exists.mp h2

theorem findIdx?_elem {l : List Task} {p : Task → Bool} {i : Nat}
    (h : l.findIdx? p = some i) :
    ∃ hi : i < l.length, p l[i] = true := by
  rcases List.findIdx?_eq_some_iff_getElem.mp h with ⟨hi, hp, _⟩
  exact ⟨hi, hp⟩

theorem swapFun_id (a b : String) (oa ob now : Int) (r : Task) :
    (swapFun a b oa ob now r).id = r.id := by
  unfold swapFun
  by_cases h1 : r.id = a
  · rw [if_pos h1]
  · rw [if_neg h1]
    by_cases h2 : r.id = b
    · rw [if_pos h2]
    · rw [if_neg h2]

theorem uniqueIds_swapFun {db : DbState} (a b : String) (oa ob now : Int)
    (hu : UniqueIds db) :
    UniqueIds { db with tasks := db.tasks.map (swapFun a b oa ob now) } := by
  unfold UniqueIds at hu ⊢
  rw [List.map_map]
  have hcomp : Task.id ∘ swapFun a b oa ob now = Task.id := by
    funext r
    simp only [Function.comp_apply]
    exact swapFun_id a b oa ob now r
  rw [hcomp]
  exact hu

theorem move_swap (a b : String) (now : Int) (db : DbState) (sa sb : Task)
    (hu : UniqueIds db)
    (hsa : sa ∈ db.tasks) (hsaid : sa.id = a) (hsad : sa.deleted = false)
    (hsb : sb ∈ db.tasks) (hsbid : sb.id = b) (hsbd : sb.deleted = false)
    (hne : a ≠ b) :
    move_task_to_position a b now db
      = Except.ok
        { db with tasks := db.tasks.map (swapFun a b sa.order sb.order now) } := by
  have hsaS : sa ∈ sortByKey Task.order (db.tasks.filter fun t => !t.deleted) :=
    mem_sortByKey.mpr (List.mem_filter.mpr ⟨hsa, by simp [hsad]⟩)
  have hsbS : sb ∈ sortByKey Task.order (db.tasks.filter fun t => !t.deleted) :=
    mem_sortByKey.mpr (List.mem_filter.mpr ⟨hsb, by simp [hsbd]⟩)
  obtain ⟨ci, hci⟩ :=
    findIdx?_of_mem (p := fun t => decide (t.id = a)) hsaS (by simp [hsaid])
  obtain ⟨ti, hti⟩ :=
    findIdx?_of_mem (p := fun t => decide (t.id = b)) hsbS (by simp [hsbid])
  obtain ⟨hlci, hpci⟩ := findIdx?_elem hci
  obtain ⟨hlti, hpti⟩ := findIdx?_elem hti
  simp only [decide_eq_true_eq] at hpci hpti
  have hmemci :
      (sortByKey Task.order (db.tasks.filter fun t => !t.deleted))[ci] ∈ db.tasks :=
    (List.mem_filter.mp (mem_sortByKey.mp (List.getElem_mem hlci))).1
  have hmemti :
      (sortByKey Task.order (db.tasks.filter fun t => !t.deleted))[ti] ∈ db.tasks :=
    (List.mem_filter.mp (mem_sortByKey.mp (List.getElem_mem hlti))).1
  have heqci :
      (sortByKey Task.order (db.tasks.filter fun t => !t.deleted))[ci] = sa :=
    unique_row_eq hu hmemci hsa (by rw [hpci, hsaid])
  have heqti :
      (sortByKey Task.order (db.tasks.filter fun t => !t.deleted))[ti] = sb :=
    unique_row_eq hu hmemti hsb (by rw [hpti, hsbid])
  have hcit : ci ≠ ti := by
    intro h
    rw [h] at hci
    obtain ⟨hl2, hp2⟩ := findIdx?_elem hci
    simp only [decide_eq_true_eq] at hp2
    exact hne (hp2.symm.trans hpti)
  simp only [move_task_to_position, hci, hti, hcit, if_false,
    List.getElem?_eq_getElem hlci, List.getElem?_eq_getElem hlti,
    Option.map_some, Option.getD_some, heqci, heqti]
  rfl

/-! ## Claim theorems -/

/-- C9: when the configuration's sync mode is `"local"`, `start_sync`
stores and emits exactly one `Disabled` state snapshot, performs zero
network calls, leaves the running flag untouched, and returns without
entering the sync loop — all independently of the transport. -/
theorem start_sync_local_disabled (settings : SyncSettings) (prev : SyncState)
    (prevRunning : Bool) (resp : HttpOutcome) (h : settings.syncMode = "local") :
    is_sync_enabled settings = false
    ∧ start_sync settings prev prevRunning resp =
      { finalState :=
          { status := SyncStatus.disabled
            lastSynced := none
            error := none
            syncMode := some settings.syncMode }
        running := prevRunning
        loopEntered := false
        networkCalls := 0
        emitted :=
          [{ status := SyncStatus.disabled
             lastSynced := none
             error := none
             syncMode := some settings.syncMode }] } := by
  have he : is_sync_enabled settings = false := by
    simp [is_sync_enabled, h]
  refine ⟨he, ?_⟩
  simp [start_sync, he]

/-- C9 witness: a concrete local-mode configuration. -/
theorem start_sync_local_disabled_witness :
    is_sync_enabled
        { syncMode := "local", syncUrl := "u", syncUsername := "", syncPassword := "",
          syncDbName := "d" } = false
    ∧ start_sync
        { syncMode := "local", syncUrl := "u", syncUsername := "", syncPassword := "",
          syncDbName := "d" }
        { status := SyncStatus.idle, lastSynced := none, error := none, syncMode := none }
        false (HttpOutcome.status 500 "boom") =
      { finalState :=
          { status := SyncStatus.disabled, lastSynced := none, error := none,
            syncMode := some "local" }
        running := false
        loopEntered := false
        networkCalls := 0
        emitted :=
          [{ status := SyncStatus.disabled, lastSynced := none, error := none,
             syncMode := some "local" }] } :=
  start_sync_local_disabled
    { syncMode := "local", syncUrl := "u", syncUsername := "", syncPassword := "",
      syncDbName := "d" }
    { status := SyncStatus.idle, lastSynced := none, error := none, syncMode := none }
    false (HttpOutcome.status 500 "boom") rfl

/-- C8: the existence check accepts any 2xx status and 412 ("already
exists"); any other status or a transport failure makes it fail, and a
failing existence check during a fresh `start_sync` stores an `Error`
state carrying the message, does not enter the sync loop, and leaves the
running flag cleared, so a later `start_sync` (running flag false) whose
existence check succeeds does enter the loop. -/
theorem start_sync_ensure_failure (settings : SyncSettings) (prev : SyncState)
    (resp : HttpOutcome) (he : is_sync_enabled settings = true) :
    (∀ code body, isSuccessCode code = true ∨ code = 412 →
      ensure_db_exists (HttpOutcome.status code body) = Except.ok ())
    ∧ (∀ code body, isSuccessCode code = false → code ≠ 412 →
      ensure_db_exists (HttpOutcome.status code body)
        = Except.error ("Failed to create database: " ++ body))
    ∧ (∀ m, ensure_db_exists (HttpOutcome.netErr m)
        = Except.error ("Connection failed: " ++ m))
    ∧ (∀ e, ensure_db_exists resp = Except.error e →
      (start_sync settings prev false resp).finalState.status = SyncStatus.error
      ∧ (start_sync settings prev false resp).finalState.error = some e
      ∧ (start_sync settings prev false resp).loopEntered = false
      ∧ (start_sync settings prev false resp).running = false)
    ∧ (∀ resp2, ensure_db_exists resp2 = Except.ok () →
      (start_sync settings prev false resp2).loopEntered = true
      ∧ (start_sync settings prev false resp2).running = true) := by
  refine ⟨?_, ?_, ?_, ?_, ?_⟩
  · intro code body h
    rcases h with h | h <;> simp [ensure_db_exists, h]
  · intro code body h1 h2
    simp [ensure_db_exists, h1, h2]
  · intro m
    rfl
  · intro e hens
    simp [start_sync, he, hens]
  · intro resp2 hens
    simp [start_sync, he, hens]

/-- C8 witness: a concrete 500 response aborts a fresh start; 201 and 412
succeed; a retry with a 201 response enters the loop. -/
theorem start_sync_ensure_failure_witness :
    ensure_db_exists (HttpOutcome.status 201 "ok") = Except.ok ()
    ∧ ensure_db_exists (HttpOutcome.status 412 "exists") = Except.ok ()
    ∧ (start_sync
        { syncMode := "selfhosted", syncUrl := "u", syncUsername := "",
          syncPassword := "", syncDbName := "d" }
        { status := SyncStatus.idle, lastSynced := none, error := none, syncMode := none }
        false (HttpOutcome.status 500 "boom")).running = false
    ∧ (start_sync
        { syncMode := "selfhosted", syncUrl := "u", syncUsername := "",
          syncPassword := "", syncDbName := "d" }
        { status := SyncStatus.idle, lastSynced := none, error := none, syncMode := none }
        false (HttpOutcome.status 201 "ok")).loopEntered = true := by
  have h := start_sync_ensure_failure
    { syncMode := "selfhosted", syncUrl := "u", syncUsername := "",
      syncPassword := "", syncDbName := "d" }
    { status := SyncStatus.idle, lastSynced := none, error := none, syncMode := none }
    (HttpOutcome.status 500 "boom") (by decide)
  refine ⟨h.1 201 "ok" (Or.inl (by decide)), h.1 412 "exists" (Or.inr rfl), ?_, ?_⟩
  · exact (h.2.2.2.1 "Failed to create database: boom" rfl).2.2.2
  · exact (h.2.2.2.2 (HttpOutcome.status 201 "ok") rfl).1

/-- C4 (amended): whenever the supplied task's revision counter `c` is
below i32::MAX, `update_task` persists and returns a revision whose
counter prefix is exactly `c + 1` with the fresh suffix, keeps every other
supplied field verbatim, and sets `updatedAt = now`, which is at least the
previously stored value under a monotone clock. -/
theorem update_task_spec (t : Task) (suffix : String) (now : Int) (db : DbState)
    (r : String) (c : Int) (s : Task)
    (hr : t.rev = some r) (hc : parseI32 (firstField r) = some c)
    (hlt : c < 2147483647)
    (hs : s ∈ db.tasks) (hid : s.id = t.id) (hmono : s.updatedAt ≤ now) :
    updateRevCounter t.rev = c + 1
    ∧ (update_task t suffix now db).1.rev
        = some (toString (c + 1) ++ "-" ++ suffix)
    ∧ (update_task t suffix now db).1
        = { t with rev := some (toString (c + 1) ++ "-" ++ suffix), updatedAt := now }
    ∧ s.updatedAt ≤ (update_task t suffix now db).1.updatedAt
    ∧ (update_task t suffix now db).2.tasks
        = db.tasks.map (fun x =>
            if x.id = t.id then (update_task t suffix now db).1 else x)
    ∧ (update_task t suffix now db).1 ∈ (update_task t suffix now db).2.tasks := by
  have hpc : parseRevCounter t.rev = c := by
    simp [parseRevCounter, hr, hc]
  have hb1 : -(2 ^ 31) ≤ c := parseI32_ge hc
  have hrc : updateRevCounter t.rev = c + 1 := by
    unfold updateRevCounter
    rw [hpc]
    exact wrap32_eq_self (by omega) (by omega)
  refine ⟨hrc, by simp [update_task, hrc], by simp [update_task, hrc], ?_, ?_, ?_⟩
  · simpa [update_task] using hmono
  · rfl
  · have himg := List.mem_map_of_mem
      (f := fun x => if x.id = t.id then (update_task t suffix now db).1 else x) hs
    simp only [hid, if_true, eq_self_iff_true] at himg
    exact himg

/-- C4 witness: updating the concrete task with counter 3 yields
counter 4 with the fresh suffix. -/
theorem update_task_spec_witness :
    updateRevCounter (some "3-old") = 4
    ∧ (update_task witRev3Task "new" 10 witRev3Db).1.rev = some "4-new" := by
  have h := update_task_spec witRev3Task "new" 10 witRev3Db "3-old" 3 witRev3Task
    rfl (by decide) (by decide) (List.mem_cons_self _ _) rfl (by decide)
  refine ⟨h.1, ?_⟩
  rw [h.2.1]
  decide

/-- C4 counterexample: at revision counter 2147483647 (i32::MAX) the
`i32` increment wraps, so the persisted revision is `-2147483648-<suffix>`
rather than counter `2147483648 = 2147483647 + 1`. -/
theorem update_task_rev_overflow :
    parseRevCounter overflowRevTask.rev = 2147483647
    ∧ (update_task overflowRevTask "ab" 1 overflowRevDb).1.rev
        = some "-2147483648-ab"
    ∧ (update_task overflowRevTask "ab" 1 overflowRevDb).1.rev
        ≠ some (toString (2147483647 + 1 : Int) ++ "-" ++ "ab") := by decide

/-- C10: a missing or unparsable revision prefix never makes `update_task`
fail — the previous counter is treated as 0 and the task is persisted with
revision counter 1 and the fresh suffix. -/
theorem update_task_malformed_rev (t : Task) (suffix : String) (now : Int)
    (db : DbState)
    (h : t.rev = none ∨ ∀ r, t.rev = some r → parseI32 (firstField r) = none) :
    updateRevCounter t.rev = 1
    ∧ (update_task t suffix now db).1.rev = some ("1-" ++ suffix)
    ∧ (update_task t suffix now db).2.tasks
        = db.tasks.map (fun x =>
            if x.id = t.id then (update_task t suffix now db).1 else x) := by
  have hpc : parseRevCounter t.rev = 0 := by
    rcases h with h | h
    · simp [parseRevCounter, h]
    · cases ht : t.rev with
      | none => simp [parseRevCounter]
      | some r => simp [parseRevCounter, h r ht]
  have hrc : updateRevCounter t.rev = 1 := by
    unfold updateRevCounter
    rw [hpc]
    decide
  refine ⟨hrc, ?_, rfl⟩
  show some (toString (updateRevCounter t.rev) ++ "-" ++ suffix) = some ("1-" ++ suffix)
  rw [hrc]
  rfl

/-- C10 witness: a task with no revision at all gets revision `1-<suffix>`. -/
theorem update_task_malformed_rev_witness :
    updateRevCounter none = 1
    ∧ (update_task { witRev3Task with rev := none } "s" 9 witRev3Db).1.rev
        = some "1-s" := by
  have h := update_task_malformed_rev { witRev3Task with rev := none } "s" 9 witRev3Db
    (Or.inl rfl)
  exact ⟨h.1, h.2.1⟩

/-- C5 (amended): `add_task` persists (by appending) and returns a task
with the caller-fresh id, revision `1-<suffix>`, `completed = false`,
`deleted = false`, `updatedAt = now`, and order `max + 1` over the
non-deleted rows' orders — equal to 1 when no non-deleted row exists —
whenever that maximum is below i32::MAX (the `i32` addition wraps at
i32::MAX; stored orders are `i32` values, whence the range hypothesis). -/
theorem add_task_spec (title : String) (description dueDate : Option String)
    (freshId suffix : String) (now : Int) (db : DbState)
    (hub : maxOrderNonDeleted db < 2147483647)
    (hlb : ∀ r ∈ db.tasks, -(2 ^ 31) ≤ r.order) :
    (add_task title description dueDate freshId suffix now db).1.id = freshId
    ∧ (add_task title description dueDate freshId suffix now db).1.rev
        = some ("1-" ++ suffix)
    ∧ (add_task title description dueDate freshId suffix now db).1.completed = false
    ∧ (add_task title description dueDate freshId suffix now db).1.deleted = false
    ∧ (add_task title description dueDate freshId suffix now db).1.updatedAt = now
    ∧ (add_task title description dueDate freshId suffix now db).1.order
        = maxOrderNonDeleted db + 1
    ∧ ((db.tasks.filter fun x => !x.deleted) = [] →
        (add_task title description dueDate freshId suffix now db).1.order = 1)
    ∧ (add_task title description dueDate freshId suffix now db).2.tasks
        = db.tasks ++ [(add_task title description dueDate freshId suffix now db).1] := by
  have hor : wrap32 (maxOrderNonDeleted db + 1) = maxOrderNonDeleted db + 1 := by
    have hge := maxOrderNonDeleted_ge hlb
    exact wrap32_eq_self (by omega) (by omega)
  refine ⟨rfl, rfl, rfl, rfl, rfl, by simpa [add_task] using hor, ?_, rfl⟩
  intro hempty
  have hm0 : maxOrderNonDeleted db = 0 := by
    simp [maxOrderNonDeleted, hempty]
  simp [add_task, hm0]
  decide

/-- C5 witness: adding to a store whose only non-deleted row has order 2
yields order 3; adding to the empty store yields order 1. -/
theorem add_task_spec_witness :
    (add_task "a" none none "id1" "sfx" 4
      { tasks := [{ witRev3Task with order := 2 }], lastSeq := none,
        lastSyncedAt := none }).1.order = 2 + 1
    ∧ (add_task "a" none none "id1" "sfx" 4
      { tasks := [], lastSeq := none, lastSyncedAt := none }).1.order = 1
    ∧ (add_task "a" none none "id1" "sfx" 4
      { tasks := [], lastSeq := none, lastSyncedAt := none }).1.rev = some "1-sfx" := by
  have h1 := add_task_spec "a" none none "id1" "sfx" 4
    { tasks := [{ witRev3Task with order := 2 }], lastSeq := none, lastSyncedAt := none }
    (by decide) (by decide)
  have h2 := add_task_spec "a" none none "id1" "sfx" 4
    { tasks := [], lastSeq := none, lastSyncedAt := none }
    (by decide) (by decide)
  refine ⟨?_, h2.2.2.2.2.2.2.1 rfl, h2.2.1⟩
  rw [h1.2.2.2.2.2.1]
  decide

/-- C5 counterexample: with a non-deleted row at order 2147483647
(i32::MAX) the created task's order wraps to -2147483648 instead of
`max + 1 = 2147483648`. -/
theorem add_task_order_overflow :
    maxOrderNonDeleted maxOrderDb = 2147483647
    ∧ (add_task "t" none none "i" "s" 0 maxOrderDb).1.order = -2147483648
    ∧ (add_task "t" none none "i" "s" 0 maxOrderDb).1.order
        ≠ maxOrderNonDeleted maxOrderDb + 1 := by decide

/-- C2: `upsert_from_remote` inserts the document when no row with its id
exists; when the row exists it overwrites the whole row (other rows
untouched) exactly when the incoming `updatedAt` is strictly greater, and
leaves the store completely unchanged otherwise (ties favor the local
row); applying the same document twice leaves the same state as applying
it once. -/
theorem upsert_from_remote_lww (t : Task) (db : DbState) (hu : UniqueIds db) :
    ((∀ r ∈ db.tasks, r.id ≠ t.id) →
      upsert_from_remote t db = { db with tasks := db.tasks ++ [t] })
    ∧ (∀ s ∈ db.tasks, s.id = t.id → s.updatedAt < t.updatedAt →
      (upsert_from_remote t db).tasks
        = db.tasks.map (fun r => if r.id = t.id then t else r))
    ∧ (∀ s ∈ db.tasks, s.id = t.id → t.updatedAt ≤ s.updatedAt →
      upsert_from_remote t db = db)
    ∧ upsert_from_remote t (upsert_from_remote t db) = upsert_from_remote t db := by
  refine ⟨fun h => upsert_of_no_row h, ?_, ?_, ?_⟩
  · intro s hs hsid hlt
    rw [upsert_of_row ⟨s, hs, hsid⟩]
    apply List.map_congr_left
    intro x hx
    by_cases hxid : x.id = t.id
    · have hxs : x = s := unique_row_eq hu hx hs (by rw [hxid, hsid])
      subst hxs
      simp [hxid, hlt]
    · simp [hxid]
  · intro s hs hsid hle
    rw [upsert_of_row ⟨s, hs, hsid⟩]
    have hmap : db.tasks.map
        (fun r => if r.id = t.id ∧ r.updatedAt < t.updatedAt then t else r)
        = db.tasks.map id := by
      apply List.map_congr_left
      intro x hx
      by_cases hxid : x.id = t.id
      · have hxs : x = s := unique_row_eq hu hx hs (by rw [hxid, hsid])
        subst hxs
        have hnlt : ¬(x.id = t.id ∧ x.updatedAt < t.updatedAt) := by
          intro hcon
          exact absurd hcon.2 (not_lt.mpr hle)
        simp only [hnlt, if_false, id]
      · have hncond : ¬(x.id = t.id ∧ x.updatedAt < t.updatedAt) := by
          intro hcon
          exact hxid hcon.1
        simp only [hncond, if_false, id]
    rw [hmap, List.map_id]
  · cases hany : db.tasks.any (fun r => r.id = t.id) with
    | false =>
      have hno : ∀ r ∈ db.tasks, r.id ≠ t.id := by
        intro r hr
        have := List.any_eq_false.mp hany r hr
        simpa using this
      rw [upsert_of_no_row hno,
        upsert_of_row ⟨t, by simp, rfl⟩]
      have hmap : (db.tasks ++ [t]).map
          (fun r => if r.id = t.id ∧ r.updatedAt < t.updatedAt then t else r)
          = db.tasks ++ [t] := by
        rw [List.map_append]
        have h1 : db.tasks.map
            (fun r => if r.id = t.id ∧ r.updatedAt < t.updatedAt then t else r)
            = db.tasks.map id := by
          apply List.map_congr_left
          intro x hx
          have : ¬(x.id = t.id ∧ x.updatedAt < t.updatedAt) := by
            intro hcon
            exact hno x hx hcon.1
          simp only [this, if_false, id]
        rw [h1, List.map_id]
        simp
      rw [hmap]
    | true =>
      rcases List.any_eq_true.mp hany with ⟨s, hs, hsid⟩
      rw [decide_eq_true_eq] at hsid
      rw [upsert_of_row ⟨s, hs, hsid⟩]
      have hy : ∃ y ∈ db.tasks.map
          (fun r => if r.id = t.id ∧ r.updatedAt < t.updatedAt then t else r),
          y.id = t.id := by
        refine ⟨if s.id = t.id ∧ s.updatedAt < t.updatedAt then t else s,
          List.mem_map_of_mem _ hs, ?_⟩
        split
        · rfl
        · exact hsid
      rw [upsert_of_row hy]
      have hff : ((db.tasks.map
          (fun r => if r.id = t.id ∧ r.updatedAt < t.updatedAt then t else r)).map
          (fun r => if r.id = t.id ∧ r.updatedAt < t.updatedAt then t else r))
          = db.tasks.map
            (fun r => if r.id = t.id ∧ r.updatedAt < t.updatedAt then t else r) := by
        rw [List.map_map]
        apply List.map_congr_left
        intro x _
        simp only [Function.comp_apply]
        by_cases hcond : x.id = t.id ∧ x.updatedAt < t.updatedAt
        · rw [if_pos hcond]
          have hnt : ¬(t.id = t.id ∧ t.updatedAt < t.updatedAt) := by
            intro hcon
            exact absurd hcon.2 (lt_irrefl _)
          rw [if_neg hnt]
        · rw [if_neg hcond, if_neg hcond]
      rw [hff]

/-- C2 witness: on the concrete one-row store, the strictly newer remote
document overwrites the row, and upserting it twice equals upserting it
once. -/
theorem upsert_from_remote_lww_witness :
    (upsert_from_remote witRemoteTask witRev3Db).tasks = [witRemoteTask]
    ∧ upsert_from_remote witRemoteTask (upsert_from_remote witRemoteTask witRev3Db)
        = upsert_from_remote witRemoteTask witRev3Db := by
  have h := upsert_from_remote_lww witRemoteTask witRev3Db (by unfold UniqueIds; decide)
  refine ⟨?_, h.2.2.2⟩
  rw [h.2.1 witRev3Task (List.mem_cons_self _ _) rfl (by decide)]
  decide

/-- C6: after `delete_task` on a stored row, the tombstoned row (with
`deleted = true` and `updatedAt` = deletion time) is retained in the
table, `get_all_tasks` no longer returns any row with that id, and
`get_changes_since u` returns the tombstone for every `u` strictly below
the deletion time. -/
theorem delete_task_tombstone (id : String) (now : Int) (db : DbState) (s : Task)
    (hs : s ∈ db.tasks) (hid : s.id = id) :
    ({ s with deleted := true, updatedAt := now } : Task).deleted = true
    ∧ { s with deleted := true, updatedAt := now } ∈ (delete_task id now db).tasks
    ∧ (∀ r ∈ get_all_tasks (delete_task id now db), r.id ≠ id)
    ∧ (∀ u : Int, u < now →
        { s with deleted := true, updatedAt := now }
          ∈ get_changes_since u (delete_task id now db)) := by
  have hmem : { s with deleted := true, updatedAt := now }
      ∈ (delete_task id now db).tasks := by
    have himg := List.mem_map_of_mem
      (f := fun r => if r.id = id then { r with deleted := true, updatedAt := now }
        else r) hs
    simp only [delete_task]
    simpa [hid] using himg
  refine ⟨rfl, hmem, ?_, ?_⟩
  · intro r hr hcon
    have hr2 := List.mem_filter.mp (mem_sortByKey.mp hr)
    rcases List.mem_map.mp hr2.1 with ⟨r0, hr0, hr0eq⟩
    by_cases h0 : r0.id = id
    · rw [if_pos h0] at hr0eq
      have : r.deleted = true := by rw [← hr0eq]
      simp [this] at hr2
    · rw [if_neg h0] at hr0eq
      rw [← hr0eq] at hcon
      exact h0 hcon
  · intro u hu
    apply mem_sortByKey.mpr
    apply List.mem_filter.mpr
    exact ⟨hmem, decide_eq_true hu⟩

/-- C6 witness: deleting the concrete stored row at time 20. -/
theorem delete_task_tombstone_witness :
    { witRev3Task with deleted := true, updatedAt := (20 : Int) }
      ∈ (delete_task "w" 20 witRev3Db).tasks
    ∧ (∀ r ∈ get_all_tasks (delete_task "w" 20 witRev3Db), r.id ≠ "w")
    ∧ { witRev3Task with deleted := true, updatedAt := (20 : Int) }
      ∈ get_changes_since 19 (delete_task "w" 20 witRev3Db) := by
  have h := delete_task_tombstone "w" 20 witRev3Db witRev3Task
    (List.mem_cons_self _ _) rfl
  exact ⟨h.2.1, h.2.2.1, h.2.2.2 19 (by decide)⟩

/-- C1: on a concrete store containing a tombstone, the push phase — which
iterates `get_all_tasks`, i.e. `WHERE deleted = 0` — fetches-then-writes
only the active row: no pushed document carries the tombstone's id, so the
pushed set is NOT the set of all rows and the deletion cannot propagate
(the `_deleted` branch of the pushed document is unreachable). -/
theorem push_changes_skips_tombstones :
    pushTombTask ∈ pushDb.tasks
    ∧ pushTombTask.deleted = true
    ∧ pushDb.tasks.map Task.id = ["keep", "gone"]
    ∧ (push_changes (fun _ => none) pushDb).map CouchDoc.id = ["keep"]
    ∧ (∀ d ∈ push_changes (fun _ => none) pushDb, d.id ≠ pushTombTask.id)
    ∧ (∀ d ∈ push_changes (fun _ => none) pushDb, d.deleted = none) := by decide

/-- C3 (amended): a failed change-feed round trip (request, status or
parse) aborts the pull with the store and cursor untouched; a failing
individual upsert aborts the pull without persisting the cursor, but the
upserts executed before the failure remain applied (per-row application,
not transactional); when the whole batch is processed the cursor is
persisted unconditionally to the feed's `last_seq`, even for an empty
batch. -/
theorem pull_changes_spec (upsertOk : Nat → Bool) (now : Int) (db : DbState) :
    (∀ e, pull_changes (Except.error e) upsertOk now db = (Except.error e, db))
    ∧ (∀ resp : ChangesResponse, ∀ e : String, ∀ db1 : DbState,
        applyResults upsertOk resp.results 0 db = (Except.error e, db1) →
        pull_changes (Except.ok resp) upsertOk now db = (Except.error e, db1)
        ∧ db1.lastSeq = db.lastSeq
        ∧ db1.lastSyncedAt = db.lastSyncedAt)
    ∧ (∀ resp : ChangesResponse, ∀ db1 : DbState,
        applyResults upsertOk resp.results 0 db = (Except.ok (), db1) →
        pull_changes (Except.ok resp) upsertOk now db
          = (Except.ok (), set_last_sync_seq resp.last_seq now db1))
    ∧ (∀ resp : ChangesResponse, resp.results = [] →
        pull_changes (Except.ok resp) upsertOk now db
          = (Except.ok (), set_last_sync_seq resp.last_seq now db)) := by
  refine ⟨fun e => rfl, ?_, ?_, ?_⟩
  · intro resp e db1 h
    have hc := applyResults_cursor upsertOk resp.results 0 db
    rw [h] at hc
    refine ⟨?_, hc.1, hc.2⟩
    simp only [pull_changes]
    rw [h]
  · intro resp db1 h
    simp only [pull_changes]
    rw [h]
  · intro resp h
    simp only [pull_changes, h]
    rfl



/-- C3 counterexample: when the second of two upserts fails, the pull
aborts and the cursor stays at its old value, but the first remote
document has already been applied to the store — a partial application of
remote changes, contradicting the claim's "no partial application". -/
theorem pull_changes_partial_application :
    (pull_changes (Except.ok pullResp) (fun k => k == 0) 7 pullDb0).1
      = Except.error "Upsert failed"
    ∧ (pull_changes (Except.ok pullResp) (fun k => k == 0) 7 pullDb0).2.tasks
      = [docToTask none pullDocA]
    ∧ (pull_changes (Except.ok pullResp) (fun k => k == 0) 7 pullDb0).2.tasks
      ≠ pullDb0.tasks
    ∧ (pull_changes (Except.ok pullResp) (fun k => k == 0) 7 pullDb0).2.lastSeq
      = some "0" := by
  refine ⟨rfl, by decide, by decide, by decide⟩

/-- C3 witness: an empty batch still advances the cursor to the feed's
`last_seq`. -/
theorem pull_changes_spec_witness :
    pull_changes (Except.ok { results := [], last_seq := "9" }) (fun _ => true) 3 pullDb0
      = (Except.ok (), set_last_sync_seq "9" 3 pullDb0) :=
  (pull_changes_spec (fun _ => true) 3 pullDb0).2.2.2
    { results := [], last_seq := "9" } rfl

/-- C7: `move_task_to_position a b` swaps exactly the `order` values of
the rows with ids `a` and `b` (every other row keeps its order; no
insertion-shift), is a no-op when `a = b`, and applying it twice restores
every row's original `(id, order)` projection, hence the original relative
ordering. -/
theorem move_task_to_position_swap (a b : String) (now now2 : Int) (db : DbState)
    (sa sb : Task) (hu : UniqueIds db)
    (hsa : sa ∈ db.tasks) (hsaid : sa.id = a) (hsad : sa.deleted = false)
    (hsb : sb ∈ db.tasks) (hsbid : sb.id = b) (hsbd : sb.deleted = false) :
    (a = b → move_task_to_position a b now db = Except.ok db)
    ∧ (a ≠ b →
      move_task_to_position a b now db
        = Except.ok
          { db with tasks := db.tasks.map (swapFun a b sa.order sb.order now) }
      ∧ move_task_to_position a b now2
          { db with tasks := db.tasks.map (swapFun a b sa.order sb.order now) }
        = Except.ok
          { db with
            tasks := List.map (swapFun a b sb.order sa.order now2)
              (db.tasks.map (swapFun a b sa.order sb.order now)) }
      ∧ ((db.tasks.map (swapFun a b sa.order sb.order now)).map
          (swapFun a b sb.order sa.order now2)).map (fun r => (r.id, r.order))
        = db.tasks.map (fun r => (r.id, r.order))) := by
  constructor
  · intro hab
    subst hab
    have hsaS : sa ∈ sortByKey Task.order (db.tasks.filter fun t => !t.deleted) :=
      mem_sortByKey.mpr (List.mem_filter.mpr ⟨hsa, by simp [hsad]⟩)
    obtain ⟨ci, hci⟩ :=
      findIdx?_of_mem (p := fun t => decide (t.id = a)) hsaS (by simp [hsaid])
    simp only [move_task_to_position, hci]
    simp
  · intro hne
    have hba : ¬b = a := fun hcon => hne hcon.symm
    have hsbna : ¬sb.id = a := by
      rw [hsbid]
      exact hba
    have h1 := move_swap a b now db sa sb hu hsa hsaid hsad hsb hsbid hsbd hne
    have hu1 := uniqueIds_swapFun a b sa.order sb.order now hu
    have hfsa : swapFun a b sa.order sb.order now sa
        = { sa with order := sb.order, updatedAt := now } := by
      unfold swapFun
      rw [if_pos hsaid]
    have hfsb : swapFun a b sa.order sb.order now sb
        = { sb with order := sa.order, updatedAt := now } := by
      unfold swapFun
      rw [if_neg hsbna, if_pos hsbid]
    have hra : { sa with order := sb.order, updatedAt := now }
        ∈ db.tasks.map (swapFun a b sa.order sb.order now) :=
      hfsa ▸ List.mem_map_of_mem _ hsa
    have hrb : { sb with order := sa.order, updatedAt := now }
        ∈ db.tasks.map (swapFun a b sa.order sb.order now) :=
      hfsb ▸ List.mem_map_of_mem _ hsb
    have h2 := move_swap a b now2
      { db with tasks := db.tasks.map (swapFun a b sa.order sb.order now) }
      { sa with order := sb.order, updatedAt := now }
      { sb with order := sa.order, updatedAt := now }
      hu1 hra
      (show ({ sa with order := sb.order, updatedAt := now } : Task).id = a from hsaid)
      (show ({ sa with order := sb.order, updatedAt := now } : Task).deleted = false
        from hsad)
      hrb
      (show ({ sb with order := sa.order, updatedAt := now } : Task).id = b from hsbid)
      (show ({ sb with order := sa.order, updatedAt := now } : Task).deleted = false
        from hsbd)
      hne
    refine ⟨h1, h2, ?_⟩
    rw [List.map_map, List.map_map]
    apply List.map_congr_left
    intro r hr
    simp only [Function.comp_apply]
    by_cases h1r : r.id = a
    · have hreq : r = sa := unique_row_eq hu hr hsa (by rw [h1r, hsaid])
      subst hreq
      simp [swapFun, hsaid]
    · by_cases h2r : r.id = b
      · have hreq : r = sb := unique_row_eq hu hr hsb (by rw [h2r, hsbid])
        subst hreq
        simp [swapFun, hsbid, hba]
      · simp [swapFun, h1r, h2r]

/-- C7 witness: on the concrete two-row store, moving "a" onto "b" swaps
their orders, a second application restores all `(id, order)` pairs, and
moving "a" onto "a" is a no-op. -/
theorem move_task_to_position_swap_witness :
    move_task_to_position "a" "b" 7 swapDb
      = Except.ok { swapDb with tasks := swapDb.tasks.map (swapFun "a" "b" 1 2 7) }
    ∧ ((swapDb.tasks.map (swapFun "a" "b" 1 2 7)).map
        (swapFun "a" "b" 2 1 8)).map (fun r => (r.id, r.order))
      = swapDb.tasks.map (fun r => (r.id, r.order))
    ∧ move_task_to_position "a" "a" 9 swapDb = Except.ok swapDb := by
  have h := move_task_to_position_swap "a" "b" 7 8 swapDb swapTaskA swapTaskB
    (by unfold UniqueIds; decide) (by decide) rfl rfl (by decide) rfl rfl
  have hno := move_task_to_position_swap "a" "a" 9 9 swapDb swapTaskA swapTaskA
    (by unfold UniqueIds; decide) (by decide) rfl rfl (by decide) rfl rfl
  have h2 := h.2 (by decide)
  exact ⟨h2.1, h2.2.2, hno.1 rfl⟩

end Taskist
